import Mathlib

/-!
Verification development for the `kinesis-writable` library: a shallow
embedding of the failover pool (`pool.js`, `KinesisStreamPool`), the buffered
batching sink (`KinesisStream` with `_write` / `_sendEntries` / `_batch_size`
accounting), the rewritten queue-based sink (`recordsQueue` / `flush` /
`dispatch`), the retry wrappers, and the error-index parser
`getRecordIndexesFromError`, together with proofs of the behavioural
properties of these components.
-/

namespace KinesisWritable

/-- Records carried through the pool are opaque payloads; we identify them
abstractly by natural numbers. -/
abbrev Rec := Nat

/-- Helper for lodash `_.union`: keep the first occurrence of each element,
dropping later duplicates (`seen` accumulates the elements already kept). -/
def uniqAux (seen : List Rec) : List Rec → List Rec
  | [] => []
  | a :: l => if a ∈ seen then uniqAux seen l else a :: uniqAux (a :: seen) l

/-- lodash `_.union(a, b)`: the concatenation of `a` and `b` with duplicates
removed, keeping first occurrences. -/
def lodashUnion (a b : List Rec) : List Rec :=
  uniqAux [] (a ++ b)

/-- State of a `KinesisStreamPool`: the per-stream `failing` flags (one entry
per stream of `params.streams`, in configured order), the index of the
`primaryStream`, the index of the `currentStream`, the `recordsToRetry`
buffer, and counters of emitted pool-level `error` and `poolFailure`
events. -/
structure PoolState where
  failing : List Bool
  primary : Nat
  current : Nat
  recordsToRetry : List Rec
  errEvents : Nat
  poolFailureEvents : Nat
deriving Repr, DecidableEq

/-- Reading `stream.failing` of the stream at index `i` (absent property
reads as falsy). -/
def failingAt (s : PoolState) (i : Nat) : Bool :=
  s.failing.getD i false

/-- Reading `self.currentStream.failing`. -/
def currentFailing (s : PoolState) : Bool :=
  failingAt s s.current

/-- The `everythingIsFailing` check of the pool's own `error` listener:
`_.every(self.streams, (stream) => stream.failing === true)`. -/
def allFailing (s : PoolState) : Bool :=
  s.failing.all (· = true)

/-- lodash `_.find(self.streams, (stream) => !stream.failing)`: index of the
first stream whose `failing` flag is false. -/
def firstHealthy : List Bool → Option Nat
  | [] => none
  | false :: _ => some 0
  | true :: l => (firstHealthy l).map (· + 1)

/-- Number of streams whose `failing` flag is false (used as a termination
measure for the retry loop). -/
def countHealthy (l : List Bool) : Nat :=
  (l.filter (· = false)).length

/-- Body of the per-stream `error` handler installed by the
`KinesisStreamPool` constructor, up to (not including) the final
emit-or-retry choice: merge `err.records` into `recordsToRetry` (lodash
union, guarded by `if (err.records)`), mark the signalling stream `failing`,
and re-select `currentStream`: the primary if it is not failing, else the
first non-failing stream, else leave `currentStream` unchanged
(`selectCurrent` is this re-selection). -/
def selectCurrent (fl : List Bool) (primary fallback : Nat) : Nat :=
  if fl.getD primary false = false then primary
  else
    match firstHealthy fl with
    | some j => j
    | none => fallback

def signalCore (s : PoolState) (i : Nat) (recs : List Rec) : PoolState :=
  { s with
    recordsToRetry :=
      if recs.isEmpty then s.recordsToRetry else lodashUnion s.recordsToRetry recs,
    failing := s.failing.set i true,
    current := selectCurrent (s.failing.set i true) s.primary s.current }

/-- The pool's `self.emit('error', err)` together with its own `error`
listener, which emits `poolFailure` exactly when every stream is failing. -/
def emitPoolError (s : PoolState) : PoolState :=
  { s with
    errEvents := s.errEvents + 1,
    poolFailureEvents := s.poolFailureEvents + (if allFailing s then 1 else 0) }

/-- Environment of a pool run: `env i r = true` means that writing record `r`
through the stream at index `i` signals that stream's `error` event (with
`err.records = [r]`, the failed record, as a sink reports the records of the
failed write back on the error object). -/
abbrev PoolEnv := Nat → Rec → Bool

/-- One execution of `KinesisStreamPool.prototype.retrySendingRecords`'s
`while` loop (flattened: the re-entrant handler calls behave exactly like
continuing the loop, since the nested retry loop has the same guard and the
same shared state).  `fuel` is an upper bound on the number of iterations:
each iteration either removes a buffered record for good or newly marks the
current stream failing, so `countHealthy + buffer length` iterations always
suffice and the `0` cut-off is never reached from `drain` below. -/
def drainGo (env : PoolEnv) : Nat → PoolState → PoolState
  | 0, s => s
  | fuel + 1, s =>
    match s.recordsToRetry, s.failing.get? s.current with
    | [], _ => s
    | _ :: _, none => s
    | _ :: _, some true => s
    | r :: rest, some false =>
      if env s.current r then
        let s1 := signalCore { s with recordsToRetry := rest } s.current [r]
        if currentFailing s1 then emitPoolError s1
        else drainGo env fuel s1
      else drainGo env fuel { s with recordsToRetry := rest }

/-- `KinesisStreamPool.prototype.retrySendingRecords`: shift records off
`recordsToRetry` and rewrite each through `currentStream` while the buffer is
non-empty and the current stream is not failing. -/
def drain (env : PoolEnv) (s : PoolState) : PoolState :=
  drainGo env (countHealthy s.failing + s.recordsToRetry.length) s

/-- A stream's `error` signal handled by the pool: the handler body
(`signalCore`) followed by `if (self.currentStream.failing) emit error else
retrySendingRecords()`. -/
def handleSignal (env : PoolEnv) (s : PoolState) (i : Nat) (recs : List Rec) :
    PoolState :=
  if currentFailing (signalCore s i recs) then emitPoolError (signalCore s i recs)
  else drain env (signalCore s i recs)

/-- Resetting done by the recovery timer before retrying: clear `failing` on
every stream and make the primary current again. -/
def poolReset (s : PoolState) : PoolState :=
  { s with failing := s.failing.map (fun _ => false), current := s.primary }

/-- The `setInterval` callback of the pool: a no-op unless the primary is
failing; otherwise reset all `failing` flags, set `currentStream` to the
primary and drain the retry buffer. -/
def timerFire (env : PoolEnv) (s : PoolState) : PoolState :=
  if s.failing.getD s.primary false = false then s
  else drain env (poolReset s)

/-- `KinesisStreamPool.prototype._write`: delegate the chunk to
`currentStream.write`; if that write fails, the stream's `error` event (with
the failed chunk as `err.records`) is handled by the pool. -/
def poolWrite (env : PoolEnv) (s : PoolState) (r : Rec) : PoolState :=
  if env s.current r then handleSignal env s s.current [r] else s

/-- Pool state built by the constructor: `n` streams, none failing, the
primary (index `p`) current, empty retry buffer, no events emitted. -/
def mkPool (n p : Nat) : PoolState :=
  { failing := List.replicate n false, primary := p, current := p,
    recordsToRetry := [], errEvents := 0, poolFailureEvents := 0 }

/-- Well-formedness: `primary` and `current` index actual streams. -/
def PoolWF (s : PoolState) : Prop :=
  s.primary < s.failing.length ∧ s.current < s.failing.length

/-- One completed pool step: a delegated write, a stream's failure signal
handled (for a stream of the pool), or a recovery-timer firing. -/
inductive PoolStep (env : PoolEnv) : PoolState → PoolState → Prop
  | write (s : PoolState) (r : Rec) : PoolStep env s (poolWrite env s r)
  | signal (s : PoolState) (i : Nat) (recs : List Rec)
      (h : i < s.failing.length) : PoolStep env s (handleSignal env s i recs)
  | timer (s : PoolState) : PoolStep env s (timerFire env s)

/-- Pool states reachable from construction by completed pool steps. -/
inductive PoolReachable (env : PoolEnv) (n p : Nat) : PoolState → Prop
  | init (h : p < n) : PoolReachable env n p (mkPool n p)
  | step {s t : PoolState} (hs : PoolReachable env n p s)
      (ht : PoolStep env s t) : PoolReachable env n p t

/-- The pool failure condition: the current sink is not marked failing unless
every sink is marked failing. -/
def PoolInv (s : PoolState) : Prop :=
  currentFailing s = true → allFailing s = true



/-- Default of `params.retryPrimaryInterval || (5 * 60 * 1000)` in the
`KinesisStreamPool` constructor. -/
def defaultRetryPrimaryInterval : Nat := 5 * 60 * 1000

/-- An environment in which every write through every stream fails. -/
def envAllFail : PoolEnv := fun _ _ => true

/-- A record as built by `_mapEntry` in the buffered configuration:
`new BufferedRecord(msg, partitionKey(msg))`. -/
structure BufferedRecord where
  Data : String
  PartitionKey : String
deriving Repr, DecidableEq

/-- Buffer configuration of the buffered `KinesisStream`: `timeout` (seconds),
`length` (max queued messages), `maxBatchSize` (max bytes per batch), and the
optional `isPrioritaryMsg` predicate. -/
structure OldBufferCfg where
  timeout : Nat
  length : Nat
  maxBatchSize : Nat
  isPrioritaryMsg : Option (String → Bool)

/-- Constant `MAX_BATCH_SIZE = 5*1024*1024 - 1024`. -/
def maxBatchSizeDefault : Nat := 5 * 1024 * 1024 - 1024

/-- The `defaultBuffer` of the buffered `KinesisStream` constructor:
`{ timeout: 5, length: 10, maxBatchSize: MAX_BATCH_SIZE }`. -/
def oldDefaultBuffer : OldBufferCfg :=
  { timeout := 5, length := 10, maxBatchSize := maxBatchSizeDefault,
    isPrioritaryMsg := none }

/-- Message of the error produced when the stream name is not set
("Stream's name was not set.", the apostrophe written as character 39). -/
def streamNameNotSetMsg : String :=
  "Stream" ++ (Char.ofNat 39).toString ++ "s name was not set."

/-- State of a buffered `KinesisStream`: the configured `streamName`, the
`_queue` of buffered records, the `_batch_size` byte counter, the batches
handed to `_putRecords` so far (in order), and the emitted `error` event
messages. -/
structure OldSinkState where
  streamName : Option String
  queue : List BufferedRecord
  batchSize : Nat
  sent : List (List BufferedRecord)
  errorEvents : List String
deriving Repr, DecidableEq

/-- Initial state of a buffered `KinesisStream` with the given stream name. -/
def oldInit (name : Option String) : OldSinkState :=
  { streamName := name, queue := [], batchSize := 0, sent := [],
    errorEvents := [] }

/-- `KinesisStream.prototype._sendEntries`: take the pending records, clear
the queue and the `_batch_size` counter; an empty queue only re-arms the
timer; otherwise emit an error when no stream name is set (the code still
proceeds) and hand the pending records to `_putRecords` as one batch. -/
def oldSendEntries (s : OldSinkState) : OldSinkState :=
  if s.queue.isEmpty then { s with queue := [], batchSize := 0 }
  else
    { s with
      queue := [],
      batchSize := 0,
      errorEvents :=
        if s.streamName.isNone then s.errorEvents ++ [streamNameNotSetMsg]
        else s.errorEvents,
      sent := s.sent ++ [s.queue] }

/-- `KinesisStream.prototype._write` of the buffered configuration: fail the
write immediately when no stream name is set (error to the `done` callback,
nothing queued, zero submission attempts); otherwise add `msg.length` to
`_batch_size` and flush first when it exceeds `maxBatchSize`, push the mapped
record, then flush when the queue reached `buffer.length` or the message is
prioritary.  Result: new state, the error passed to `done`, and the number of
write attempts performed. -/
def oldWrite (cfg : OldBufferCfg) (pk : String → String) (s : OldSinkState)
    (msg : String) : OldSinkState × Option String × Nat :=
  if s.streamName.isNone then (s, some streamNameNotSetMsg, 0)
  else
    let b := s.batchSize + msg.length
    let s1 :=
      if cfg.maxBatchSize < b then oldSendEntries { s with batchSize := b }
      else { s with batchSize := b }
    let s2 := { s1 with queue := s1.queue ++ [⟨msg, pk msg⟩] }
    let prio :=
      match cfg.isPrioritaryMsg with
      | some p => p msg
      | none => false
    if cfg.length ≤ s2.queue.length ∨ prio = true then (oldSendEntries s2, none, 1)
    else (s2, none, 1)

/-- External events driving a buffered sink: a write or a buffer-timeout
firing (`_queueSendEntries` calling `_sendEntries`). -/
inductive OldEvt where
  | write (msg : String)
  | timer
deriving Repr

/-- One event applied to a buffered sink state. -/
def oldStep (cfg : OldBufferCfg) (pk : String → String) (s : OldSinkState) :
    OldEvt → OldSinkState
  | OldEvt.write msg => (oldWrite cfg pk s msg).1
  | OldEvt.timer => oldSendEntries s

/-- A run of a buffered sink from construction over a list of events. -/
def oldRun (cfg : OldBufferCfg) (pk : String → String) (name : Option String)
    (evts : List OldEvt) : OldSinkState :=
  evts.foldl (oldStep cfg pk) (oldInit name)

/-- Cumulative byte size of a batch (the sum of the `msg.length` values that
`_write` adds to `_batch_size`). -/
def batchBytes (b : List BufferedRecord) : Nat :=
  (b.map (fun r => r.Data.length)).sum

/-- Byte size of the first record of a batch (0 for an empty batch). -/
def headBytes : List BufferedRecord → Nat
  | [] => 0
  | r :: _ => r.Data.length

/-- Run invariant of the buffered sink: the byte counter never exceeds
`maxBatchSize`; the queued bytes are covered by the counter except possibly
for the first queued record (whose size is lost when `_sendEntries` resets
`_batch_size` right before the record is pushed); the queue stays below
`buffer.length`; and every batch sent so far respects the amended bounds. -/
def OldInv (cfg : OldBufferCfg) (s : OldSinkState) : Prop :=
  s.batchSize ≤ cfg.maxBatchSize ∧
  batchBytes s.queue ≤ s.batchSize + headBytes s.queue ∧
  s.queue.length < cfg.length ∧
  ∀ b ∈ s.sent, b.length ≤ cfg.length ∧
    batchBytes b ≤ cfg.maxBatchSize + headBytes b

/-- Retry configuration of the buffered `KinesisStream`
(`params.retryConfiguration`). -/
structure OldRetryCfg where
  retries : Nat
  factor : Nat
  minTimeout : Nat
  randomize : Bool
deriving Repr, DecidableEq

/-- The default used when `params.retryConfiguration` is absent:
`{ retries: 0, factor: 2, minTimeout: 1000, randomize: false }`. -/
def oldDefaultRetryCfg : OldRetryCfg :=
  { retries := 0, factor := 2, minTimeout := 1000, randomize := false }

/-- Result of running a retried operation against an outcome oracle
(`outcome k` is the error of the `k`-th attempt, `none` for success): total
attempts made, the delays slept between attempts, and the error surfaced at
the end (`none` on success). -/
structure AttemptOutcome where
  attemptsMade : Nat
  delays : List Nat
  finalError : Option Nat
deriving Repr, DecidableEq

/-- Operation loop of the `retry` module: attempt, and while attempts fail
and retries remain, sleep `minTimeout * factor ^ (attempt - 1)` and try
again. -/
def retryLoopGo (cfg : OldRetryCfg) (outcome : Nat → Option Nat) :
    Nat → Nat → List Nat → AttemptOutcome
  | 0, a, ds => { attemptsMade := a, delays := ds, finalError := outcome a }
  | rem + 1, a, ds =>
    match outcome a with
    | none => { attemptsMade := a, delays := ds, finalError := none }
    | some _ =>
      retryLoopGo cfg outcome rem (a + 1)
        (ds ++ [cfg.minTimeout * cfg.factor ^ (a - 1)])

/-- `KinesisStream.prototype._getRetryOperation` applied to an operation:
with `retries > 0` it runs the `retry` module's operation; otherwise it
returns the inline fake operation `{ attempt: (cb) => cb(1), retry: () =>
false }`, which performs exactly one attempt, sleeps never, and surfaces the
first error directly. -/
def runRetryOperation (cfg : OldRetryCfg) (outcome : Nat → Option Nat) :
    AttemptOutcome :=
  if 0 < cfg.retries then retryLoopGo cfg outcome cfg.retries 1 []
  else { attemptsMade := 1, delays := [], finalError := outcome 1 }

/-- Retry configuration of the rewritten sink's buffer
(`buffer.retry`: `retries`, `minTimeout`, `maxTimeout`). -/
structure NewRetryCfg where
  retries : Nat
  minTimeout : Nat
  maxTimeout : Nat
deriving Repr, DecidableEq

/-- Buffer configuration of the rewritten sink (`this.buffer`): flush
`timeout` (seconds), max batch `length`, the `hasPriority` predicate and the
retry policy. -/
structure NewBufferCfg where
  timeout : Nat
  length : Nat
  hasPriority : Rec → Bool
  retry : NewRetryCfg

/-- The `defaultBuffer` of the rewritten sink: `{ timeout: 5, length: 10,
hasPriority: () => false, retry: { retries: 2, minTimeout: 300, maxTimeout:
500 } }`; it is merged over `params.buffer`, so this is what an instance gets
when no buffer or retry options are configured. -/
def newDefaultBuffer : NewBufferCfg :=
  { timeout := 5, length := 10, hasPriority := fun _ => false,
    retry := { retries := 2, minTimeout := 300, maxTimeout := 500 } }

/-- State of the rewritten sink: the `recordsQueue`, whether a flush timer is
armed, and the non-empty batches handed to `dispatch` so far. -/
structure NewSinkState where
  recordsQueue : List Rec
  timerArmed : Bool
  dispatched : List (List Rec)
deriving Repr, DecidableEq

/-- `KinesisStream.prototype.flush` of the rewritten sink:
`dispatch(this.recordsQueue.splice(0, this.buffer.length))`; `dispatch`
returns immediately on an empty batch. -/
def newFlush (cfg : NewBufferCfg) (s : NewSinkState) : NewSinkState :=
  { s with
    recordsQueue := s.recordsQueue.drop cfg.length,
    dispatched :=
      if (s.recordsQueue.take cfg.length).isEmpty then s.dispatched
      else s.dispatched ++ [s.recordsQueue.take cfg.length] }

/-- `KinesisStream.prototype._write` of the rewritten sink: `unshift` the
parsed chunk when it has priority, else `push` it; clear the armed timer;
flush synchronously when the queue reached `buffer.length` or the chunk has
priority, otherwise arm the flush timer. -/
def newWrite (cfg : NewBufferCfg) (s : NewSinkState) (m : Rec) : NewSinkState :=
  if cfg.hasPriority m then
    newFlush cfg
      { s with recordsQueue := m :: s.recordsQueue, timerArmed := false }
  else if cfg.length ≤ (s.recordsQueue ++ [m]).length then
    newFlush cfg
      { s with recordsQueue := s.recordsQueue ++ [m], timerArmed := false }
  else
    { s with recordsQueue := s.recordsQueue ++ [m], timerArmed := true }

/-- Result of `dispatch`: how many `putRecords` attempts were made and the
batch-level failure event (`emitRecordError(err, records)`) if one fired,
carrying the final error and the batch's records. -/
structure DispatchResult where
  attempts : Nat
  errorEvent : Option (Nat × List Rec)
deriving Repr, DecidableEq

/-- Attempt loop of `retry.operation` as used by `dispatch`: attempt number
`a` runs; on failure, retry while retries remain. -/
def newAttemptLoop (outcome : Nat → Option Nat) : Nat → Nat → Nat × Option Nat
  | 0, a => (a, outcome a)
  | rem + 1, a =>
    match outcome a with
    | none => (a, none)
    | some _ => newAttemptLoop outcome rem (a + 1)

/-- `KinesisStream.prototype.dispatch` of the rewritten sink: return at once
for an empty batch; otherwise submit under
`retry.operation(this.buffer.retry)` and, once retries are exhausted with an
error, emit the batch-level failure event with the last error and the
records. -/
def newDispatch (retryCfg : NewRetryCfg) (records : List Rec)
    (outcome : Nat → Option Nat) : DispatchResult :=
  if records.isEmpty then { attempts := 0, errorEvent := none }
  else
    match newAttemptLoop outcome retryCfg.retries 1 with
    | (a, none) => { attempts := a, errorEvent := none }
    | (a, some e) => { attempts := a, errorEvent := some (e, records) }

/-- An error object as inspected by `getRecordIndexesFromError`: its
`message` is a string or something else (`none`). -/
structure KErr where
  message : Option String

/-- Characters of the literal part `records.` of `RECORD_REGEXP`. -/
def recPat : List Char := "records.".data

/-- Characters of the literal part `.member.data` of `RECORD_REGEXP`. -/
def memPat : List Char := ".member.data".data

/-- `parseInt` on a non-empty digit string. -/
def digitsVal (ds : List Char) : Nat :=
  ds.foldl (fun a c => a * 10 + (c.toNat - 48)) 0

/-- Consume an exact literal prefix, returning the rest of the input. -/
def dropLit : List Char → List Char → Option (List Char)
  | [], l => some l
  | _ :: _, [] => none
  | c :: p, x :: l => if x = c then dropLit p l else none

/-- Match attempt of `RECORD_REGEXP` at the start of the input: the literal
`records.`, then the greedy non-empty digit run, then the literal
`.member.data`; return the parsed number and the rest of the input. -/
def tryMatch (l : List Char) : Option (Nat × List Char) :=
  match dropLit recPat l with
  | none => none
  | some l1 =>
    if (l1.takeWhile Char.isDigit).isEmpty then none
    else
      match dropLit memPat (l1.drop (l1.takeWhile Char.isDigit).length) with
      | none => none
      | some l3 => some (digitsVal (l1.takeWhile Char.isDigit), l3)

/-- Repeated `RECORD_REGEXP.exec` with the `g` flag: scan left to right; at a
match, record `parseInt(match[1], 10) - 1` and continue after the match; else
advance one character.  `fuel` bounds the scan; every step consumes at least
one character, so `l.length` fuel (as used by `scanIdx`) never runs out. -/
def scanGo : Nat → List Char → List Int
  | 0, _ => []
  | fuel + 1, l =>
    match l with
    | [] => []
    | c :: rest =>
      match tryMatch (c :: rest) with
      | some (k, l2) => ((k : Int) - 1) :: scanGo fuel l2
      | none => scanGo fuel rest

/-- All matches of `RECORD_REGEXP` over a message, as 0-based indices. -/
def scanIdx (l : List Char) : List Int := scanGo l.length l

/-- `getRecordIndexesFromError`: the empty list when the error is absent or
its message is not a string; otherwise the parsed 0-based indices. -/
def getRecordIndexesFromError : Option KErr → List Int
  | none => []
  | some e =>
    match e.message with
    | none => []
    | some m => scanIdx m.data

/-- Decimal digit character. -/
def digitChar (d : Nat) : Char := Char.ofNat (48 + d)

/-- Decimal digits of a natural number; `fuel` bounds the recursion depth and
`n + 1` (as used by `natDigits`) always suffices. -/
def natDigitsGo : Nat → Nat → List Char
  | 0, _ => []
  | fuel + 1, n =>
    if n < 10 then [digitChar n]
    else natDigitsGo fuel (n / 10) ++ [digitChar (n % 10)]

/-- Decimal digits of a natural number. -/
def natDigits (n : Nat) : List Char := natDigitsGo (n + 1) n

/-- Characters of one full occurrence `records.<k>.member.data`. -/
def blockChars (k : Nat) : List Char := recPat ++ natDigits k ++ memPat

/-- A message interleaving separator texts with occurrences of the pattern. -/
def mkMsgChars : List (List Char × Nat) → List Char → List Char
  | [], tail => tail
  | (sep, k) :: rest, tail => sep ++ blockChars k ++ mkMsgChars rest tail

/-- Result of `_retryValidRecords`: the records reported as failed on the
emitted error (`err.records`; `none` entries stand for `undefined` values
produced by out-of-range indices in lodash `_.pullAt`), and the single
resubmission of the remaining records (`none` when `_putRecords` is not
called again). -/
structure RetryOutcome where
  reportedRecords : List (Option Rec)
  resubmitted : Option (List Rec)
deriving Repr, DecidableEq

/-- Return value of lodash `_.pullAt(records, indexes)`: the elements at the
given indexes, in index-list order (`undefined`, i.e. `none`, outside the
array). -/
def pullAtRemoved (l : List Rec) (idxs : List Int) : List (Option Rec) :=
  idxs.map (fun i => if i < 0 then none else l.get? i.toNat)

/-- Records left in the array after lodash `_.pullAt(records, indexes)`:
those whose position is not among the indexes, in original order. -/
def pullAtRemaining (l : List Rec) (idxs : List Int) : List Rec :=
  (l.enum.filter (fun p => decide (¬ ((p.1 : Int) ∈ idxs)))).map Prod.snd

/-- `KinesisStream.prototype._retryValidRecords`: parse the failed indices
from the error; when some were found, pull those records out (they become
`err.records`) and resubmit the remaining records once through `_putRecords`;
when none were found, all records are reported failed and nothing is
resubmitted. -/
def retryValidRecords (records : List Rec) (err : Option KErr) : RetryOutcome :=
  if (getRecordIndexesFromError err).isEmpty then
    { reportedRecords := records.map some, resubmitted := none }
  else
    { reportedRecords := pullAtRemoved records (getRecordIndexesFromError err),
      resubmitted :=
        some (pullAtRemaining records (getRecordIndexesFromError err)) }

/-- Specification-side description of the remaining records of the batch:
walk the batch with its positions, keeping exactly the records whose
position is not among the failed indices. -/
def specRemaining : Nat → List Rec → List Nat → List Rec
  | _, [], _ => []
  | j, r :: rs, jdx =>
    if j ∈ jdx then specRemaining (j + 1) rs jdx
    else r :: specRemaining (j + 1) rs jdx

theorem uniqAux_length_le (seen : List Rec) (l : List Rec) :
    (uniqAux seen l).length ≤ l.length := by
  induction l generalizing seen with
  | nil => simp [uniqAux]
  | cons a l ih =>
    simp only [uniqAux]
    split
    · exact Nat.le_succ_of_le (ih seen)
    · simpa using Nat.succ_le_succ (ih (a :: seen))

theorem lodashUnion_length_le (a b : List Rec) :
    (lodashUnion a b).length ≤ a.length + b.length := by
  simpa using uniqAux_length_le [] (a ++ b)

theorem countHealthy_cons (b : Bool) (l : List Bool) :
    countHealthy (b :: l) = (if b = false then 1 else 0) + countHealthy l := by
  cases b <;> simp [countHealthy, List.filter] <;> omega

theorem countHealthy_set_true (l : List Bool) (i : Nat)
    (h : l.get? i = some false) :
    countHealthy (l.set i true) + 1 = countHealthy l := by
  induction l generalizing i with
  | nil => simp at h
  | cons b l ih =>
    cases i with
    | zero =>
      simp only [List.get?] at h
      cases h
      simp [countHealthy, List.filter]
    | succ i =>
      simp only [List.get?] at h
      have hih := ih i h
      rw [List.set_cons_succ, countHealthy_cons, countHealthy_cons]
      omega

theorem firstHealthy_lt (l : List Bool) (j : Nat)
    (h : firstHealthy l = some j) : j < l.length := by
  induction l generalizing j with
  | nil => simp [firstHealthy] at h
  | cons b l ih =>
    cases b with
    | false =>
      simp only [firstHealthy, Option.some.injEq] at h
      subst h
      simp
    | true =>
      rcases hfl : firstHealthy l with _ | j'
      · simp [firstHealthy, hfl] at h
      · simp only [firstHealthy, hfl, Option.map_some', Option.some.injEq] at h
        subst h
        have := ih j' hfl
        simp only [List.length_cons]
        omega

theorem firstHealthy_get (l : List Bool) (j : Nat)
    (h : firstHealthy l = some j) : l.get? j = some false := by
  induction l generalizing j with
  | nil => simp [firstHealthy] at h
  | cons b l ih =>
    cases b with
    | false =>
      simp only [firstHealthy, Option.some.injEq] at h
      subst h
      rfl
    | true =>
      rcases hfl : firstHealthy l with _ | j'
      · simp [firstHealthy, hfl] at h
      · simp only [firstHealthy, hfl, Option.map_some', Option.some.injEq] at h
        subst h
        simpa using ih j' hfl

theorem firstHealthy_none (l : List Bool)
    (h : firstHealthy l = none) : l.all (· = true) = true := by
  induction l with
  | nil => simp
  | cons b l ih =>
    cases b with
    | false => simp [firstHealthy] at h
    | true =>
      rcases hfl : firstHealthy l with _ | j'
      · simpa using ih hfl
      · simp [firstHealthy, hfl] at h

theorem selectCurrent_lt (fl : List Bool) (p c : Nat)
    (hp : p < fl.length) (hc : c < fl.length) :
    selectCurrent fl p c < fl.length := by
  unfold selectCurrent
  split
  · exact hp
  · rcases hfl : firstHealthy fl with _ | j
    · simpa using hc
    · simpa using firstHealthy_lt fl j hfl

theorem selectCurrent_failing (fl : List Bool) (p c : Nat)
    (hp : p < fl.length)
    (h : fl.getD (selectCurrent fl p c) false = true) :
    fl.all (· = true) = true := by
  unfold selectCurrent at h
  by_cases hpr : fl.getD p false = false
  · rw [if_pos hpr] at h
    rw [hpr] at h
    simp at h
  · rw [if_neg hpr] at h
    rcases hfl : firstHealthy fl with _ | j
    · exact firstHealthy_none fl hfl
    · rw [hfl] at h
      have hg := firstHealthy_get fl j hfl
      rw [List.getD_eq_getElem?_getD, ← List.get?_eq_getElem?, hg] at h
      simp at h

theorem signalCore_failing (s : PoolState) (i : Nat) (recs : List Rec) :
    (signalCore s i recs).failing = s.failing.set i true := rfl

theorem signalCore_current (s : PoolState) (i : Nat) (recs : List Rec) :
    (signalCore s i recs).current
      = selectCurrent (s.failing.set i true) s.primary s.current := rfl

theorem signalCore_primary (s : PoolState) (i : Nat) (recs : List Rec) :
    (signalCore s i recs).primary = s.primary := rfl

theorem signalCore_events (s : PoolState) (i : Nat) (recs : List Rec) :
    (signalCore s i recs).errEvents = s.errEvents ∧
    (signalCore s i recs).poolFailureEvents = s.poolFailureEvents :=
  ⟨rfl, rfl⟩

theorem signalCore_wf (s : PoolState) (i : Nat) (recs : List Rec)
    (hwf : PoolWF s) : PoolWF (signalCore s i recs) := by
  obtain ⟨hp, hc⟩ := hwf
  constructor
  · simpa [signalCore] using hp
  · rw [signalCore_failing, signalCore_current]
    exact selectCurrent_lt _ _ _ (by simpa using hp) (by simpa using hc)

theorem signalCore_current_failing (s : PoolState) (i : Nat) (recs : List Rec)
    (hwf : PoolWF s)
    (h : currentFailing (signalCore s i recs) = true) :
    allFailing (signalCore s i recs) = true := by
  obtain ⟨hp, _⟩ := hwf
  simp only [currentFailing, failingAt, signalCore_failing,
    signalCore_current] at h
  simp only [allFailing, signalCore_failing]
  exact selectCurrent_failing _ _ _ (by simpa using hp) h

theorem emitPoolError_fields (s : PoolState) :
    (emitPoolError s).failing = s.failing ∧
    (emitPoolError s).current = s.current ∧
    (emitPoolError s).primary = s.primary ∧
    (emitPoolError s).recordsToRetry = s.recordsToRetry :=
  ⟨rfl, rfl, rfl, rfl⟩

theorem drainGo_wf (env : PoolEnv) (fuel : Nat) (s : PoolState)
    (hwf : PoolWF s) : PoolWF (drainGo env fuel s) := by
  induction fuel generalizing s with
  | zero => exact hwf
  | succ fuel ih =>
    rcases hq : s.recordsToRetry with _ | ⟨r, rest⟩
    · simp [drainGo, hq]
      exact hwf
    · rcases hg : s.failing.get? s.current with _ | b
      · simp only [drainGo, hq, hg]
        exact hwf
      · cases b with
        | true =>
          simp only [drainGo, hq, hg]
          exact hwf
        | false =>
          simp only [drainGo, hq, hg]
          split
          · have hwf1 : PoolWF (signalCore { s with recordsToRetry := rest }
                s.current [r]) :=
              signalCore_wf _ _ _ ⟨hwf.1, hwf.2⟩
            split
            · exact ⟨hwf1.1, hwf1.2⟩
            · exact ih _ hwf1
          · exact ih _ ⟨hwf.1, hwf.2⟩

theorem drainGo_inv (env : PoolEnv) (fuel : Nat) (s : PoolState)
    (hwf : PoolWF s) (hinv : PoolInv s) : PoolInv (drainGo env fuel s) := by
  induction fuel generalizing s with
  | zero => exact hinv
  | succ fuel ih =>
    rcases hq : s.recordsToRetry with _ | ⟨r, rest⟩
    · simpa only [drainGo, hq] using hinv
    · rcases hg : s.failing.get? s.current with _ | b
      · simpa only [drainGo, hq, hg] using hinv
      · cases b with
        | true => simpa only [drainGo, hq, hg] using hinv
        | false =>
          simp only [drainGo, hq, hg]
          have hwfs : PoolWF ({ s with recordsToRetry := rest } : PoolState) :=
            ⟨hwf.1, hwf.2⟩
          split
          · split
            · next hcf =>
              intro _
              have hall := signalCore_current_failing _ _ _ hwfs hcf
              simpa [allFailing, emitPoolError] using hall
            · next hcf =>
              refine ih _ (signalCore_wf _ _ _ hwfs) ?_
              intro h
              exact absurd h (by simpa using hcf)
          · refine ih _ hwfs ?_
            intro h
            simp only [currentFailing, failingAt, List.getD_eq_getElem?_getD,
              ← List.get?_eq_getElem?, hg] at h
            simp at h

theorem drainGo_post (env : PoolEnv) (fuel : Nat) (s : PoolState)
    (hwf : PoolWF s)
    (hfuel : countHealthy s.failing + s.recordsToRetry.length ≤ fuel) :
    (drainGo env fuel s).recordsToRetry = [] ∨
      currentFailing (drainGo env fuel s) = true := by
  induction fuel generalizing s with
  | zero =>
    left
    have : s.recordsToRetry.length = 0 := by omega
    simpa [drainGo] using List.length_eq_zero.mp this
  | succ fuel ih =>
    rcases hq : s.recordsToRetry with _ | ⟨r, rest⟩
    · left
      simp [drainGo, hq]
    · rcases hg : s.failing.get? s.current with _ | b
      · exfalso
        have h1 := List.get?_eq_none.mp hg
        have h2 := hwf.2
        omega
      · cases b with
        | true =>
          right
          simp only [drainGo, hq, hg, currentFailing, failingAt,
            List.getD_eq_getElem?_getD, ← List.get?_eq_getElem?, hg]
          rfl
        | false =>
          simp only [drainGo, hq, hg]
          have hwfs : PoolWF ({ s with recordsToRetry := rest } : PoolState) :=
            ⟨hwf.1, hwf.2⟩
          split
          · set s1 := signalCore { s with recordsToRetry := rest } s.current [r]
              with hs1
            split
            · next hcf =>
              right
              simpa [currentFailing, failingAt, emitPoolError] using hcf
            · next hcf =>
              refine ih s1 (signalCore_wf _ _ _ hwfs) ?_
              have hcnt : countHealthy s1.failing + 1 = countHealthy s.failing := by
                rw [hs1, signalCore_failing]
                exact countHealthy_set_true _ _ hg
              have hbuf : s1.recordsToRetry.length ≤ rest.length + 1 := by
                rw [hs1]
                simp only [signalCore, List.isEmpty_cons]
                simpa using lodashUnion_length_le rest [r]
              have : s.recordsToRetry.length = rest.length + 1 := by
                rw [hq]; rfl
              omega
          · refine ih _ hwfs ?_
            have : s.recordsToRetry.length = rest.length + 1 := by
              rw [hq]; rfl
            simp only []
            omega

theorem drainGo_events (env : PoolEnv) (fuel : Nat) (s : PoolState)
    (hwf : PoolWF s) (hcf : currentFailing s = false) :
    (drainGo env fuel s).poolFailureEvents
      = s.poolFailureEvents +
        (if currentFailing (drainGo env fuel s) then 1 else 0) ∧
    (currentFailing (drainGo env fuel s) = true →
      allFailing (drainGo env fuel s) = true) := by
  induction fuel generalizing s with
  | zero =>
    refine ⟨by simp [drainGo, hcf], ?_⟩
    intro h
    rw [show drainGo env 0 s = s from rfl] at h
    exact absurd h (by simp [hcf])
  | succ fuel ih =>
    rcases hq : s.recordsToRetry with _ | ⟨r, rest⟩
    · simp only [drainGo, hq]
      exact ⟨by simp [hcf], fun h => absurd h (by simp [hcf])⟩
    · rcases hg : s.failing.get? s.current with _ | b
      · simp only [drainGo, hq, hg]
        exact ⟨by simp [hcf], fun h => absurd h (by simp [hcf])⟩
      · cases b with
        | true =>
          exfalso
          have : currentFailing s = true := by
            simp only [currentFailing, failingAt, List.getD_eq_getElem?_getD,
              ← List.get?_eq_getElem?, hg]
            rfl
          rw [this] at hcf
          exact Bool.noConfusion hcf
        | false =>
          simp only [drainGo, hq, hg]
          have hwfs : PoolWF ({ s with recordsToRetry := rest } : PoolState) :=
            ⟨hwf.1, hwf.2⟩
          split
          · set s1 := signalCore { s with recordsToRetry := rest } s.current [r]
              with hs1
            have hpfe : s1.poolFailureEvents = s.poolFailureEvents := by
              rw [hs1]; rfl
            split
            · next hcf1 =>
              have hall := signalCore_current_failing _ _ _ hwfs hcf1
              rw [← hs1] at hall
              have hcf1' : s1.failing[s1.current]?.getD false = true := by
                simpa [currentFailing, failingAt,
                  List.getD_eq_getElem?_getD] using hcf1
              constructor
              · simp [emitPoolError, hall, hpfe, currentFailing, failingAt,
                  List.getD_eq_getElem?_getD, hcf1']
              · intro _
                simpa [allFailing, emitPoolError] using hall
            · next hcf1 =>
              have hcf1' : currentFailing s1 = false := by
                simpa using hcf1
              have := ih s1 (signalCore_wf _ _ _ hwfs) hcf1'
              rw [hpfe] at this
              exact this
          · have hcf' : currentFailing { s with recordsToRetry := rest } = false := by
              simpa [currentFailing, failingAt] using hcf
            exact ih _ hwfs hcf'

theorem handleSignal_wf (env : PoolEnv) (s : PoolState) (i : Nat)
    (recs : List Rec) (hwf : PoolWF s) :
    PoolWF (handleSignal env s i recs) := by
  unfold handleSignal
  have hwf1 := signalCore_wf s i recs hwf
  split
  · exact ⟨hwf1.1, hwf1.2⟩
  · exact drainGo_wf _ _ _ hwf1

theorem handleSignal_inv (env : PoolEnv) (s : PoolState) (i : Nat)
    (recs : List Rec) (hwf : PoolWF s) :
    PoolInv (handleSignal env s i recs) := by
  unfold handleSignal
  have hwf1 := signalCore_wf s i recs hwf
  split
  · next hcf =>
    intro _
    have hall := signalCore_current_failing s i recs hwf hcf
    simpa [allFailing, emitPoolError] using hall
  · next hcf =>
    refine drainGo_inv _ _ _ hwf1 ?_
    intro h
    exact absurd h (by simpa using hcf)

theorem handleSignal_events (env : PoolEnv) (s : PoolState) (i : Nat)
    (recs : List Rec) (hwf : PoolWF s) :
    (handleSignal env s i recs).poolFailureEvents
      = s.poolFailureEvents +
        (if currentFailing (handleSignal env s i recs) then 1 else 0) ∧
    (currentFailing (handleSignal env s i recs) = true →
      allFailing (handleSignal env s i recs) = true) := by
  unfold handleSignal
  have hwf1 := signalCore_wf s i recs hwf
  have hpfe : (signalCore s i recs).poolFailureEvents = s.poolFailureEvents := rfl
  split
  · next hcf =>
    have hall := signalCore_current_failing s i recs hwf hcf
    have hcf' : (signalCore s i recs).failing[(signalCore s i recs).current]?.getD
        false = true := by
      simpa [currentFailing, failingAt, List.getD_eq_getElem?_getD] using hcf
    constructor
    · simp [emitPoolError, hall, hpfe, currentFailing, failingAt,
        List.getD_eq_getElem?_getD, hcf']
    · intro _
      simpa [allFailing, emitPoolError] using hall
  · next hcf =>
    have hcf' : currentFailing (signalCore s i recs) = false := by
      simpa using hcf
    have hde := drainGo_events env
      (countHealthy (signalCore s i recs).failing +
        (signalCore s i recs).recordsToRetry.length)
      (signalCore s i recs) hwf1 hcf'
    rw [hpfe] at hde
    simpa [drain] using hde

theorem poolReset_current_failing (s : PoolState) :
    currentFailing (poolReset s) = false := by
  simp only [currentFailing, failingAt, poolReset, List.getD_eq_getElem?_getD,
    List.getElem?_map]
  cases h : s.failing[s.primary]? <;> simp

theorem poolReset_wf (s : PoolState) (hwf : PoolWF s) : PoolWF (poolReset s) := by
  obtain ⟨hp, _⟩ := hwf
  exact ⟨by simpa [poolReset] using hp, by simpa [poolReset] using hp⟩

theorem timerFire_wf (env : PoolEnv) (s : PoolState) (hwf : PoolWF s) :
    PoolWF (timerFire env s) := by
  unfold timerFire
  split
  · exact hwf
  · exact drainGo_wf _ _ _ (poolReset_wf s hwf)

theorem timerFire_inv (env : PoolEnv) (s : PoolState) (hwf : PoolWF s)
    (hinv : PoolInv s) : PoolInv (timerFire env s) := by
  unfold timerFire
  split
  · exact hinv
  · refine drainGo_inv _ _ _ (poolReset_wf s hwf) ?_
    intro h
    exact absurd h (by simp [poolReset_current_failing])

theorem poolWrite_wf (env : PoolEnv) (s : PoolState) (r : Rec)
    (hwf : PoolWF s) : PoolWF (poolWrite env s r) := by
  unfold poolWrite
  split
  · exact handleSignal_wf _ _ _ _ hwf
  · exact hwf

theorem poolWrite_inv (env : PoolEnv) (s : PoolState) (r : Rec)
    (hwf : PoolWF s) (hinv : PoolInv s) : PoolInv (poolWrite env s r) := by
  unfold poolWrite
  split
  · exact handleSignal_inv _ _ _ _ hwf
  · exact hinv

theorem mkPool_wf (n p : Nat) (h : p < n) : PoolWF (mkPool n p) := by
  constructor <;> simpa [mkPool] using h

theorem mkPool_inv (n p : Nat) : PoolInv (mkPool n p) := by
  intro h
  exfalso
  simp only [currentFailing, failingAt, mkPool, List.getD_eq_getElem?_getD,
    List.getElem?_replicate] at h
  split at h <;> simp_all

theorem poolReachable_wf_inv (env : PoolEnv) (n p : Nat) (s : PoolState)
    (h : PoolReachable env n p s) : PoolWF s ∧ PoolInv s := by
  induction h with
  | init hp => exact ⟨mkPool_wf n p hp, mkPool_inv n p⟩
  | step _ hstep ih =>
    obtain ⟨hwf, hinv⟩ := ih
    cases hstep with
    | write r => exact ⟨poolWrite_wf _ _ _ hwf, poolWrite_inv _ _ _ hwf hinv⟩
    | signal i recs hi =>
      exact ⟨handleSignal_wf _ _ _ _ hwf, handleSignal_inv _ _ _ _ hwf⟩
    | timer => exact ⟨timerFire_wf _ _ hwf, timerFire_inv _ _ hwf hinv⟩

/-- C1: from construction onward, after every completed pool step (failure
signal handled, recovery-timer firing, write delegated) the current sink is
not marked failing unless every sink is failing; and the failure handler
marks the signalling sink failing, then selects the preferred sink as
current when it is not failing, and otherwise the first non-failing sink in
configured order. -/
theorem C1_pool_current_sink_invariant (env : PoolEnv) (n p : Nat)
    (s : PoolState) (hs : PoolReachable env n p s) (i : Nat)
    (recs : List Rec) (hi : i < s.failing.length) :
    (currentFailing s = true → allFailing s = true) ∧
    failingAt (signalCore s i recs) i = true ∧
    (failingAt (signalCore s i recs) s.primary = false →
      (signalCore s i recs).current = s.primary) ∧
    (failingAt (signalCore s i recs) s.primary = true →
      ∀ j, firstHealthy (signalCore s i recs).failing = some j →
        (signalCore s i recs).current = j) := by
  obtain ⟨hwf, hinv⟩ := poolReachable_wf_inv env n p s hs
  refine ⟨hinv, ?_, ?_, ?_⟩
  · simp only [failingAt, signalCore_failing, List.getD_eq_getElem?_getD,
      List.getElem?_set_self, hi, if_pos]
    rfl
  · intro h
    simp only [failingAt, signalCore_failing] at h
    simp only [signalCore_current, selectCurrent, h, if_pos]
  · intro h j hj
    simp only [failingAt, signalCore_failing] at h
    simp only [signalCore_failing] at hj
    simp only [signalCore_current, selectCurrent, h, hj]
    simp

/-- Witness for C1 at a concrete reachable pool state. -/
theorem C1_pool_current_sink_invariant_witness :
    (currentFailing (mkPool 2 0) = true → allFailing (mkPool 2 0) = true) ∧
    failingAt (signalCore (mkPool 2 0) 0 [5]) 0 = true ∧
    (failingAt (signalCore (mkPool 2 0) 0 [5]) 0 = false →
      (signalCore (mkPool 2 0) 0 [5]).current = 0) ∧
    (failingAt (signalCore (mkPool 2 0) 0 [5]) 0 = true →
      ∀ j, firstHealthy (signalCore (mkPool 2 0) 0 [5]).failing = some j →
        (signalCore (mkPool 2 0) 0 [5]).current = j) :=
  C1_pool_current_sink_invariant (fun _ _ => false) 2 0 (mkPool 2 0)
    (PoolReachable.init (by decide)) 0 [5] (by decide)

/-- C2: the recovery timer (period `retryPrimaryInterval`, default 300000 ms)
is a no-op when the preferred sink is not failing; otherwise it clears the
failing flag on every sink, sets the current sink to the preferred sink, and
drains the retry buffer through the current sink, stopping (with the
undrained records still buffered) if the current sink becomes failing. -/
theorem C2_recovery_timer_fires (env : PoolEnv) (s : PoolState)
    (hwf : PoolWF s) :
    defaultRetryPrimaryInterval = 300000 ∧
    (failingAt s s.primary = false → timerFire env s = s) ∧
    (failingAt s s.primary = true →
      timerFire env s = drain env (poolReset s) ∧
      (poolReset s).failing = List.replicate s.failing.length false ∧
      (poolReset s).current = s.primary ∧
      (poolReset s).recordsToRetry = s.recordsToRetry ∧
      ((timerFire env s).recordsToRetry = [] ∨
        currentFailing (timerFire env s) = true)) := by
  refine ⟨rfl, ?_, ?_⟩
  · intro h
    simp only [failingAt] at h
    simp only [timerFire, h, if_pos]
  · intro h
    simp only [failingAt] at h
    have h' : s.failing[s.primary]?.getD false = true := by
      rw [← List.getD_eq_getElem?_getD]
      exact h
    have heq : timerFire env s = drain env (poolReset s) := by
      simp [timerFire, List.getD_eq_getElem?_getD, h']
    refine ⟨heq, by simp [poolReset, List.map_const'], rfl, rfl, ?_⟩
    rw [heq]
    exact drainGo_post env _ _ (poolReset_wf s hwf) (Nat.le_refl _)

/-- Witness for C2 at a concrete pool state with a failing primary. -/
theorem C2_recovery_timer_fires_witness :
    defaultRetryPrimaryInterval = 300000 ∧
    (failingAt (signalCore (mkPool 1 0) 0 [7]) 0 = false →
      timerFire envAllFail (signalCore (mkPool 1 0) 0 [7])
        = signalCore (mkPool 1 0) 0 [7]) ∧
    (failingAt (signalCore (mkPool 1 0) 0 [7]) 0 = true →
      timerFire envAllFail (signalCore (mkPool 1 0) 0 [7])
        = drain envAllFail (poolReset (signalCore (mkPool 1 0) 0 [7])) ∧
      (poolReset (signalCore (mkPool 1 0) 0 [7])).failing
        = List.replicate (signalCore (mkPool 1 0) 0 [7]).failing.length false ∧
      (poolReset (signalCore (mkPool 1 0) 0 [7])).current = 0 ∧
      (poolReset (signalCore (mkPool 1 0) 0 [7])).recordsToRetry
        = (signalCore (mkPool 1 0) 0 [7]).recordsToRetry ∧
      ((timerFire envAllFail (signalCore (mkPool 1 0) 0 [7])).recordsToRetry
          = [] ∨
        currentFailing (timerFire envAllFail (signalCore (mkPool 1 0) 0 [7]))
          = true)) :=
  C2_recovery_timer_fires envAllFail (signalCore (mkPool 1 0) 0 [7])
    (signalCore_wf _ _ _ (mkPool_wf 1 0 (by decide)))

/-- C3 counterexample: with two always-failing sinks, the first write drives
the pool into the all-failing state and emits `poolFailure` once; a second
write while the pool is still all-failing emits `poolFailure` again, so the
event is not emitted only once per transition into the all-failing state. -/
theorem C3_counterexample :
    allFailing (poolWrite envAllFail (mkPool 2 0) 0) = true ∧
    (poolWrite envAllFail (mkPool 2 0) 0).poolFailureEvents = 1 ∧
    (poolWrite envAllFail (poolWrite envAllFail (mkPool 2 0) 0) 1).failing
      = (poolWrite envAllFail (mkPool 2 0) 0).failing ∧
    (poolWrite envAllFail (poolWrite envAllFail (mkPool 2 0) 0) 1).poolFailureEvents
      = 2 := by
  decide

/-- C3 amended: a handled failure signal increments the pool's `poolFailure`
counter exactly when it leaves the current sink failing — equivalently, when
it leaves every sink failing — so `poolFailure` fires on the transition into
the all-failing state and again on every failure signal handled while the
pool stays all-failing, rather than only once per transition. -/
theorem C3_poolFailure_per_failing_signal (env : PoolEnv) (s : PoolState)
    (i : Nat) (recs : List Rec) (hwf : PoolWF s) :
    (handleSignal env s i recs).poolFailureEvents
      = s.poolFailureEvents +
        (if currentFailing (handleSignal env s i recs) then 1 else 0) ∧
    (currentFailing (handleSignal env s i recs) = true →
      allFailing (handleSignal env s i recs) = true) :=
  handleSignal_events env s i recs hwf

/-- Witness for the amended C3 at a concrete pool state. -/
theorem C3_poolFailure_per_failing_signal_witness :
    (handleSignal envAllFail (mkPool 2 0) 0 [9]).poolFailureEvents
      = (mkPool 2 0).poolFailureEvents +
        (if currentFailing (handleSignal envAllFail (mkPool 2 0) 0 [9])
          then 1 else 0) ∧
    (currentFailing (handleSignal envAllFail (mkPool 2 0) 0 [9]) = true →
      allFailing (handleSignal envAllFail (mkPool 2 0) 0 [9]) = true) :=
  C3_poolFailure_per_failing_signal envAllFail (mkPool 2 0) 0 [9]
    (mkPool_wf 2 0 (by decide))

theorem batchBytes_append (q : List BufferedRecord) (r : BufferedRecord) :
    batchBytes (q ++ [r]) = batchBytes q + r.Data.length := by
  simp [batchBytes]

theorem headBytes_append (q : List BufferedRecord) (r : BufferedRecord)
    (h : q ≠ []) : headBytes (q ++ [r]) = headBytes q := by
  cases q with
  | nil => exact absurd rfl h
  | cons a q => rfl

theorem oldSendEntries_queue (s : OldSinkState) :
    (oldSendEntries s).queue = [] ∧ (oldSendEntries s).batchSize = 0 ∧
    (oldSendEntries s).streamName = s.streamName := by
  unfold oldSendEntries
  split <;> exact ⟨rfl, rfl, rfl⟩

theorem oldSendEntries_sent (cfg : OldBufferCfg) (s : OldSinkState)
    (hq1 : s.queue.length ≤ cfg.length)
    (hq2 : batchBytes s.queue ≤ cfg.maxBatchSize + headBytes s.queue)
    (hs : ∀ b ∈ s.sent, b.length ≤ cfg.length ∧
      batchBytes b ≤ cfg.maxBatchSize + headBytes b) :
    ∀ b ∈ (oldSendEntries s).sent, b.length ≤ cfg.length ∧
      batchBytes b ≤ cfg.maxBatchSize + headBytes b := by
  unfold oldSendEntries
  split
  · exact hs
  · intro b hb
    simp only [List.mem_append, List.mem_singleton] at hb
    rcases hb with hb | hb
    · exact hs b hb
    · subst hb
      exact ⟨hq1, hq2⟩

theorem oldSendEntries_inv (cfg : OldBufferCfg) (s : OldSinkState)
    (hlen : 1 ≤ cfg.length)
    (hq1 : s.queue.length ≤ cfg.length)
    (hq2 : batchBytes s.queue ≤ cfg.maxBatchSize + headBytes s.queue)
    (hsent : ∀ b ∈ s.sent, b.length ≤ cfg.length ∧
      batchBytes b ≤ cfg.maxBatchSize + headBytes b) :
    OldInv cfg (oldSendEntries s) := by
  obtain ⟨hq, hb, _⟩ := oldSendEntries_queue s
  refine ⟨?_, ?_, ?_, oldSendEntries_sent cfg s hq1 hq2 hsent⟩
  · rw [hb]
    exact Nat.zero_le _
  · rw [hq, hb]
    simp [batchBytes, headBytes]
  · rw [hq]
    simpa using hlen

theorem oldWrite_inv (cfg : OldBufferCfg) (pk : String → String)
    (s : OldSinkState) (msg : String) (hlen : 1 ≤ cfg.length)
    (h : OldInv cfg s) : OldInv cfg (oldWrite cfg pk s msg).1 := by
  obtain ⟨h1, h2, h3, h4⟩ := h
  have hq2m : batchBytes s.queue ≤ cfg.maxBatchSize + headBytes s.queue :=
    Nat.le_trans h2 (Nat.add_le_add_right h1 _)
  unfold oldWrite
  split
  · exact ⟨h1, h2, h3, h4⟩
  · set b := s.batchSize + msg.length with hbdef
    by_cases hov : cfg.maxBatchSize < b
    · -- overflow: flush the current queue first; the record pushed after the
      -- flush is uncounted because the flush reset the byte counter
      simp only [hov, if_pos]
      have hq : (oldSendEntries { s with batchSize := b }).queue = [] :=
        (oldSendEntries_queue _).1
      have hbs : (oldSendEntries { s with batchSize := b }).batchSize = 0 :=
        (oldSendEntries_queue _).2.1
      have hsent : ∀ bb ∈ (oldSendEntries { s with batchSize := b }).sent,
          bb.length ≤ cfg.length ∧
          batchBytes bb ≤ cfg.maxBatchSize + headBytes bb :=
        oldSendEntries_sent cfg _ (Nat.le_of_lt h3) hq2m h4
      set s1 := oldSendEntries { s with batchSize := b } with hs1
      split
      · refine oldSendEntries_inv cfg _ hlen ?_ ?_ hsent
        · simpa [hq] using hlen
        · rw [hq]
          simp [batchBytes, headBytes, hbs]
      · next hnoflush =>
        push_neg at hnoflush
        refine ⟨by rw [hbs]; exact Nat.zero_le _, ?_, ?_, hsent⟩
        · rw [hq]
          simp [batchBytes, headBytes, hbs]
        · have := hnoflush.1
          simpa [hq] using this
    · -- no overflow: the byte counter covers the whole batch up to the
      -- possibly-uncounted head record
      simp only [hov, if_neg, if_false]
      have hble : b ≤ cfg.maxBatchSize := Nat.le_of_not_lt hov
      have hbytes : batchBytes (s.queue ++ [⟨msg, pk msg⟩]) ≤
          b + headBytes (s.queue ++ [⟨msg, pk msg⟩]) := by
        rw [batchBytes_append]
        rcases hqq : s.queue with _ | ⟨a, q⟩
        · simp [batchBytes, headBytes, hbdef]
        · rw [headBytes_append _ _ (by simp [hqq])]
          rw [hqq] at h2
          have hstep : batchBytes (a :: q) + msg.length ≤
              (s.batchSize + headBytes (a :: q)) + msg.length :=
            Nat.add_le_add_right h2 _
          have hl : ({ Data := msg, PartitionKey := pk msg } :
              BufferedRecord).Data.length = msg.length := rfl
          omega
      have hbytesm : batchBytes (s.queue ++ [⟨msg, pk msg⟩]) ≤
          cfg.maxBatchSize + headBytes (s.queue ++ [⟨msg, pk msg⟩]) :=
        Nat.le_trans hbytes (Nat.add_le_add_right hble _)
      split
      · next hflush =>
        refine oldSendEntries_inv cfg _ hlen ?_ ?_ h4
        · simpa using Nat.succ_le_of_lt h3
        · exact hbytesm
      · next hnoflush =>
        push_neg at hnoflush
        refine ⟨hble, hbytes, ?_, h4⟩
        have := hnoflush.1
        simpa using this

theorem oldStep_inv (cfg : OldBufferCfg) (pk : String → String)
    (s : OldSinkState) (evt : OldEvt) (hlen : 1 ≤ cfg.length)
    (h : OldInv cfg s) : OldInv cfg (oldStep cfg pk s evt) := by
  cases evt with
  | write msg => exact oldWrite_inv cfg pk s msg hlen h
  | timer =>
    obtain ⟨h1, h2, h3, h4⟩ := h
    exact oldSendEntries_inv cfg s hlen (Nat.le_of_lt h3)
      (Nat.le_trans h2 (Nat.add_le_add_right h1 _)) h4

theorem oldInit_inv (cfg : OldBufferCfg) (name : Option String)
    (hlen : 1 ≤ cfg.length) : OldInv cfg (oldInit name) := by
  refine ⟨Nat.zero_le _, ?_, ?_, ?_⟩
  · simp [oldInit, batchBytes, headBytes]
  · simpa [oldInit] using hlen
  · intro b hb
    simp [oldInit] at hb

theorem oldRun_inv (cfg : OldBufferCfg) (pk : String → String)
    (name : Option String) (evts : List OldEvt) (hlen : 1 ≤ cfg.length) :
    OldInv cfg (oldRun cfg pk name evts) := by
  unfold oldRun
  have hfold : ∀ s : OldSinkState, OldInv cfg s →
      OldInv cfg (evts.foldl (oldStep cfg pk) s) := by
    induction evts with
    | nil => intro s hs; exact hs
    | cons e es ih =>
      intro s hs
      exact ih _ (oldStep_inv cfg pk s e hlen hs)
  exact hfold _ (oldInit_inv cfg name hlen)

/-- C5 counterexample: with `maxBatchSize = 4` and four writes of a 3-byte
message, the second flush carries 6 bytes — the byte counter was reset by the
first (size-triggered) flush and the record pushed right after it is never
counted, so a flush can exceed `maxBatchSize` even though every record is
smaller than the bound. -/
theorem C5_counterexample :
    ¬ (∀ b ∈ (oldRun
          { timeout := 1, length := 10, maxBatchSize := 4,
            isPrioritaryMsg := none }
          (fun _ => "k") (some "s")
          [OldEvt.write "aaa", OldEvt.write "aaa", OldEvt.write "aaa",
           OldEvt.write "aaa"]).sent,
        b.length ≤ 10 ∧ batchBytes b ≤ 4) := by
  decide

/-- C5 amended: on every run of the buffered sink, every flushed batch has at
most `buffer.length` records, and its cumulative byte size is at most
`maxBatchSize` plus the byte size of the batch's first record (the record
queued immediately after a size-triggered flush escapes the byte counter, so
only this weakened byte bound holds). -/
theorem C5_flush_batch_bounds (cfg : OldBufferCfg) (pk : String → String)
    (name : Option String) (evts : List OldEvt) (hlen : 1 ≤ cfg.length) :
    ∀ b ∈ (oldRun cfg pk name evts).sent,
      b.length ≤ cfg.length ∧
      batchBytes b ≤ cfg.maxBatchSize + headBytes b :=
  (oldRun_inv cfg pk name evts hlen).2.2.2

/-- Witness for the amended C5: the batch flushed by a concrete run
satisfies both bounds. -/
theorem C5_flush_batch_bounds_witness :
    ([⟨"x", "k"⟩] : List BufferedRecord).length ≤ oldDefaultBuffer.length ∧
    batchBytes [⟨"x", "k"⟩]
      ≤ oldDefaultBuffer.maxBatchSize + headBytes [⟨"x", "k"⟩] :=
  C5_flush_batch_bounds oldDefaultBuffer (fun _ => "k") (some "s")
    [OldEvt.write "x", OldEvt.timer] (by decide) [⟨"x", "k"⟩] (by decide)

/-- C9: a write on a sink whose stream name is not set fails the triggering
operation immediately: the `done` callback gets the "Stream's name was not
set." error, the state (in particular the queue) is unchanged, and zero
submission attempts are made. -/
theorem C9_write_fails_without_stream_name (cfg : OldBufferCfg)
    (pk : String → String) (s : OldSinkState) (msg : String)
    (h : s.streamName = none) :
    oldWrite cfg pk s msg = (s, some streamNameNotSetMsg, 0) ∧
    streamNameNotSetMsg.data =
      ['S', 't', 'r', 'e', 'a', 'm', Char.ofNat 39, 's', ' ', 'n', 'a', 'm',
       'e', ' ', 'w', 'a', 's', ' ', 'n', 'o', 't', ' ', 's', 'e', 't',
       '.'] := by
  refine ⟨?_, by decide⟩
  unfold oldWrite
  simp [h]

/-- Witness for C9 at a concrete sink state with no stream name. -/
theorem C9_write_fails_without_stream_name_witness :
    oldWrite oldDefaultBuffer (fun _ => "p") (oldInit none) "x"
      = (oldInit none, some streamNameNotSetMsg, 0) ∧
    streamNameNotSetMsg.data =
      ['S', 't', 'r', 'e', 'a', 'm', Char.ofNat 39, 's', ' ', 'n', 'a', 'm',
       'e', ' ', 'w', 'a', 's', ' ', 'n', 'o', 't', ' ', 's', 'e', 't',
       '.'] :=
  C9_write_fails_without_stream_name oldDefaultBuffer (fun _ => "p")
    (oldInit none) "x" rfl

/-- C6: writing a record satisfying the priority predicate flushes
synchronously (the dispatch happens inside the write itself) and the
priority record is the first element of the dispatched batch. -/
theorem C6_priority_write_flushes_front (cfg : NewBufferCfg)
    (s : NewSinkState) (m : Rec) (hprio : cfg.hasPriority m = true)
    (hlen : 1 ≤ cfg.length) :
    (newWrite cfg s m).dispatched
      = s.dispatched ++ [m :: s.recordsQueue.take (cfg.length - 1)] ∧
    (m :: s.recordsQueue.take (cfg.length - 1)).head? = some m := by
  obtain ⟨k, hk⟩ : ∃ k, cfg.length = k + 1 :=
    ⟨cfg.length - 1, by omega⟩
  refine ⟨?_, rfl⟩
  simp [newWrite, hprio, newFlush, hk, List.take_succ_cons]

/-- Witness for C6 at a concrete queue state. -/
theorem C6_priority_write_flushes_front_witness :
    (newWrite
      { newDefaultBuffer with length := 3,
                              hasPriority := (fun m => decide (m = 9)) }
      { recordsQueue := [4, 5], timerArmed := true, dispatched := [] }
      9).dispatched
      = ([] : List (List Rec)) ++ [9 :: [4, 5].take (3 - 1)] ∧
    (9 :: ([4, 5] : List Rec).take (3 - 1)).head? = some 9 :=
  C6_priority_write_flushes_front
    { newDefaultBuffer with length := 3,
                            hasPriority := (fun m => decide (m = 9)) }
    { recordsQueue := [4, 5], timerArmed := true, dispatched := [] }
    9 (by decide) (by decide)

/-- C7: with a retry policy of `retries = 2`, a permanently failing
submission is attempted exactly 3 times, and the batch-level failure event
fires (only after the third attempt) carrying the last error and the batch's
records. -/
theorem C7_retry_bound (retryCfg : NewRetryCfg) (records : List Rec)
    (outcome : Nat → Option Nat)
    (hr : retryCfg.retries = 2) (hne : records ≠ [])
    (hfail : ∀ k, (outcome k).isSome = true) :
    (newDispatch retryCfg records outcome).attempts = 3 ∧
    ∃ e, outcome 3 = some e ∧
      (newDispatch retryCfg records outcome).errorEvent = some (e, records) := by
  obtain ⟨e1, he1⟩ := Option.isSome_iff_exists.mp (hfail 1)
  obtain ⟨e2, he2⟩ := Option.isSome_iff_exists.mp (hfail 2)
  obtain ⟨e3, he3⟩ := Option.isSome_iff_exists.mp (hfail 3)
  have hemp : records.isEmpty = false := by
    cases records with
    | nil => exact absurd rfl hne
    | cons a l => rfl
  refine ⟨?_, e3, he3, ?_⟩ <;>
    simp [newDispatch, newAttemptLoop, hr, hemp, he1, he2, he3]

/-- Witness for C7 on a concrete batch and an always-failing submission. -/
theorem C7_retry_bound_witness :
    (newDispatch newDefaultBuffer.retry [1, 2] (fun _ => some 7)).attempts = 3 ∧
    ∃ e, (fun _ => some 7 : Nat → Option Nat) 3 = some e ∧
      (newDispatch newDefaultBuffer.retry [1, 2] (fun _ => some 7)).errorEvent
        = some (e, [1, 2]) :=
  C7_retry_bound newDefaultBuffer.retry [1, 2] (fun _ => some 7)
    (by decide) (by decide) (fun k => rfl)

/-- C8 counterexample: when no retry policy is configured, the rewritten
sink's buffer defaults to `retry.retries = 2`, so a permanently failing
submission is attempted 3 times — not exactly once as the claim states. -/
theorem C8_counterexample :
    newDefaultBuffer.retry.retries = 2 ∧
    (newDispatch newDefaultBuffer.retry [0] (fun _ => some 7)).attempts = 3 ∧
    ¬ ((newDispatch newDefaultBuffer.retry [0] (fun _ => some 7)).attempts
        = 1) := by
  decide

/-- C8 amended: a `retries = 0` policy degenerates to a single attempt with
no delay, surfacing the first error immediately; this is the default of the
older API's `retryConfiguration` (absent configuration gives `retries: 0`,
and `_getRetryOperation` then performs exactly one attempt), while the
rewritten sink's default `buffer.retry` is `retries = 2`. -/
theorem C8_fail_fast_default (outcome : Nat → Option Nat) :
    oldDefaultRetryCfg.retries = 0 ∧
    runRetryOperation oldDefaultRetryCfg outcome
      = { attemptsMade := 1, delays := [], finalError := outcome 1 } ∧
    newDefaultBuffer.retry.retries = 2 := by
  refine ⟨rfl, ?_, rfl⟩
  simp [runRetryOperation, oldDefaultRetryCfg]

theorem dropLit_append (p l : List Char) : dropLit p (p ++ l) = some l := by
  induction p with
  | nil => rfl
  | cons c p ih => simp [dropLit, ih]

theorem dropLit_length (p : List Char) :
    ∀ l l', dropLit p l = some l' → l'.length + p.length = l.length := by
  induction p with
  | nil =>
    intro l l' h
    simp only [dropLit, Option.some.injEq] at h
    subst h
    rfl
  | cons c p ih =>
    intro l l' h
    cases l with
    | nil => simp [dropLit] at h
    | cons x l =>
      simp only [dropLit] at h
      split at h
      · have := ih l l' h
        simp only [List.length_cons]
        omega
      · exact absurd h (by simp)

theorem takeWhile_append_stop (p : Char → Bool) (l1 : List Char) (x : Char)
    (l2 : List Char) (h1 : ∀ c ∈ l1, p c = true) (hx : p x = false) :
    (l1 ++ x :: l2).takeWhile p = l1 := by
  induction l1 with
  | nil => simp [List.takeWhile_cons, hx]
  | cons a l ih =>
    have ha := h1 a (by simp)
    simp only [List.cons_append, List.takeWhile_cons, ha, if_pos]
    rw [ih (fun c hc => h1 c (by simp [hc]))]

theorem digitChar_isDigit (d : Nat) (h : d < 10) :
    (digitChar d).isDigit = true := by
  interval_cases d <;> decide

theorem digitChar_val (d : Nat) (h : d < 10) :
    (digitChar d).toNat - 48 = d := by
  interval_cases d <;> decide

theorem digitsVal_concat (ds : List Char) (c : Char) :
    digitsVal (ds ++ [c]) = digitsVal ds * 10 + (c.toNat - 48) := by
  simp [digitsVal, List.foldl_append]

theorem natDigitsGo_spec (fuel : Nat) :
    ∀ n, n < fuel →
      (∀ c ∈ natDigitsGo fuel n, c.isDigit = true) ∧
      natDigitsGo fuel n ≠ [] ∧
      digitsVal (natDigitsGo fuel n) = n := by
  induction fuel with
  | zero => intro n h; omega
  | succ fuel ih =>
    intro n hn
    by_cases h10 : n < 10
    · refine ⟨?_, ?_, ?_⟩
      · intro c hc
        simp only [natDigitsGo, h10, if_pos, List.mem_singleton] at hc
        subst hc
        exact digitChar_isDigit n h10
      · simp [natDigitsGo, h10]
      · simp only [natDigitsGo, h10, if_pos]
        have := digitChar_val n h10
        simp [digitsVal]
        omega
    · have hdiv : n / 10 < fuel := by
        have h1 : n / 10 < n := Nat.div_lt_self (by omega) (by omega)
        omega
      obtain ⟨ihd, ihne, ihval⟩ := ih (n / 10) hdiv
      have hmod : n % 10 < 10 := Nat.mod_lt _ (by omega)
      refine ⟨?_, ?_, ?_⟩
      · intro c hc
        simp only [natDigitsGo, h10, if_neg, if_false, List.mem_append,
          List.mem_singleton] at hc
        rcases hc with hc | hc
        · exact ihd c hc
        · subst hc
          exact digitChar_isDigit _ hmod
      · simp only [natDigitsGo, h10, if_neg, if_false]
        intro hbad
        rcases List.append_eq_nil.mp hbad with ⟨_, h2⟩
        simp at h2
      · simp only [natDigitsGo, h10, if_neg, if_false]
        rw [digitsVal_concat, ihval, digitChar_val _ hmod]
        omega

theorem natDigits_isDigit (n : Nat) :
    ∀ c ∈ natDigits n, c.isDigit = true :=
  (natDigitsGo_spec (n + 1) n (by omega)).1

theorem natDigits_ne_nil (n : Nat) : natDigits n ≠ [] :=
  (natDigitsGo_spec (n + 1) n (by omega)).2.1

theorem natDigits_val (n : Nat) : digitsVal (natDigits n) = n :=
  (natDigitsGo_spec (n + 1) n (by omega)).2.2

theorem tryMatch_block (k : Nat) (rest : List Char) :
    tryMatch (blockChars k ++ rest) = some (k, rest) := by
  have hb : blockChars k ++ rest = recPat ++ (natDigits k ++ (memPat ++ rest)) := by
    simp [blockChars]
  have hmem : memPat = '.' :: "member.data".data := by decide
  have htw : (natDigits k ++ (memPat ++ rest)).takeWhile Char.isDigit
      = natDigits k := by
    rw [hmem]
    exact takeWhile_append_stop Char.isDigit (natDigits k) '.' _
      (natDigits_isDigit k) (by decide)
  have hdr : (natDigits k ++ (memPat ++ rest)).drop (natDigits k).length
      = memPat ++ rest := List.drop_left _ _
  have hne : (natDigits k).isEmpty = false := by
    rcases h : natDigits k with _ | ⟨c, l⟩
    · exact absurd h (natDigits_ne_nil k)
    · rfl
  rw [hb]
  simp only [tryMatch, dropLit_append, htw, hdr, hne, Bool.false_eq_true,
    if_false, natDigits_val]

theorem tryMatch_none_of_head (c : Char) (l : List Char) (hc : c ≠ 'r') :
    tryMatch (c :: l) = none := by
  have hr : recPat = 'r' :: "ecords.".data := by decide
  unfold tryMatch
  rw [hr]
  simp [dropLit, hc]

theorem tryMatch_length (l l2 : List Char) (k : Nat)
    (h : tryMatch l = some (k, l2)) : l2.length < l.length := by
  unfold tryMatch at h
  rcases h1 : dropLit recPat l with _ | l1
  · simp only [h1] at h
    exact Option.noConfusion h
  · simp only [h1] at h
    have hl1 := dropLit_length recPat l l1 h1
    by_cases he : (l1.takeWhile Char.isDigit).isEmpty = true
    · simp only [he, if_pos] at h
      exact Option.noConfusion h
    · simp only [he, if_neg, if_false] at h
      rcases h3 : dropLit memPat
          (l1.drop (l1.takeWhile Char.isDigit).length) with _ | l3
      · simp only [h3] at h
        simp at h
      · simp only [h3, Option.some.injEq, Prod.mk.injEq] at h
        obtain ⟨_, rfl⟩ := h
        have hl3 := dropLit_length memPat _ _ h3
        have hdl : (l1.drop (l1.takeWhile Char.isDigit).length).length ≤
            l1.length := by
          simpa using Nat.sub_le _ _
        have hrp : recPat.length = 8 := by decide
        have hmp : memPat.length = 12 := by decide
        omega

theorem scanGo_nil (fuel : Nat) : scanGo fuel [] = [] := by
  cases fuel <;> rfl

theorem scanGo_congr (fuel1 : Nat) :
    ∀ l fuel2, l.length ≤ fuel1 → l.length ≤ fuel2 →
      scanGo fuel1 l = scanGo fuel2 l := by
  induction fuel1 with
  | zero =>
    intro l fuel2 h1 _
    have : l = [] := List.length_eq_zero.mp (by omega)
    subst this
    rw [scanGo_nil, scanGo_nil]
  | succ fuel1 ih =>
    intro l fuel2 h1 h2
    cases l with
    | nil => rw [scanGo_nil, scanGo_nil]
    | cons c rest =>
      cases fuel2 with
      | zero => simp at h2
      | succ fuel2 =>
        rcases htm : tryMatch (c :: rest) with _ | ⟨k, l2⟩
        · simp only [scanGo, htm]
          have hr : rest.length ≤ fuel1 := by
            simp only [List.length_cons] at h1
            omega
          have hr2 : rest.length ≤ fuel2 := by
            simp only [List.length_cons] at h2
            omega
          exact ih rest fuel2 hr hr2
        · simp only [scanGo, htm]
          have hl2 := tryMatch_length _ _ _ htm
          have ha : l2.length ≤ fuel1 := by
            simp only [List.length_cons] at h1 hl2
            omega
          have hb : l2.length ≤ fuel2 := by
            simp only [List.length_cons] at h2 hl2
            omega
          rw [ih l2 fuel2 ha hb]

theorem scanIdx_match (l l2 : List Char) (k : Nat) (hne : l ≠ [])
    (htm : tryMatch l = some (k, l2)) :
    scanIdx l = ((k : Int) - 1) :: scanIdx l2 := by
  cases l with
  | nil => exact absurd rfl hne
  | cons c rest =>
    have hl2 := tryMatch_length _ _ _ htm
    unfold scanIdx
    simp only [List.length_cons, scanGo, htm]
    refine congrArg _ ?_
    refine scanGo_congr _ _ _ ?_ (Nat.le_refl _)
    simp only [List.length_cons] at hl2
    omega

theorem scanIdx_cons_skip (c : Char) (l : List Char) (hc : c ≠ 'r') :
    scanIdx (c :: l) = scanIdx l := by
  unfold scanIdx
  simp only [List.length_cons, scanGo, tryMatch_none_of_head c l hc]

theorem scanIdx_append_no_r (sep l : List Char)
    (hsep : ∀ c ∈ sep, c ≠ 'r') : scanIdx (sep ++ l) = scanIdx l := by
  induction sep with
  | nil => rfl
  | cons c cs ih =>
    rw [List.cons_append, scanIdx_cons_skip c _ (hsep c (by simp)),
      ih (fun c hc => hsep c (by simp [hc]))]

theorem scanIdx_no_r (l : List Char) (h : ∀ c ∈ l, c ≠ 'r') :
    scanIdx l = [] := by
  induction l with
  | nil => rfl
  | cons c cs ih =>
    rw [scanIdx_cons_skip c cs (h c (by simp))]
    exact ih (fun c hc => h c (by simp [hc]))

theorem scanIdx_block (k : Nat) (l : List Char) :
    scanIdx (blockChars k ++ l) = ((k : Int) - 1) :: scanIdx l := by
  refine scanIdx_match _ _ _ ?_ (tryMatch_block k l)
  intro hbad
  rcases List.append_eq_nil.mp hbad with ⟨hb1, _⟩
  rw [blockChars] at hb1
  rcases List.append_eq_nil.mp hb1 with ⟨hb2, _⟩
  rcases List.append_eq_nil.mp hb2 with ⟨hb3, _⟩
  exact absurd hb3 (by decide)

theorem scanIdx_mkMsg (pairs : List (List Char × Nat)) (tail : List Char)
    (hsep : ∀ p ∈ pairs, ∀ c ∈ p.1, c ≠ 'r')
    (htail : ∀ c ∈ tail, c ≠ 'r') :
    scanIdx (mkMsgChars pairs tail) = pairs.map (fun p => (p.2 : Int) - 1) := by
  induction pairs with
  | nil => exact scanIdx_no_r tail htail
  | cons p ps ih =>
    obtain ⟨sep, k⟩ := p
    simp only [mkMsgChars, List.map_cons]
    rw [List.append_assoc,
      scanIdx_append_no_r sep _ (hsep (sep, k) (by simp)), scanIdx_block]
    rw [ih (fun q hq => hsep q (by simp [hq]))]

/-- C10: for an error whose string message interleaves occurrences of
`records.<k>.member.data` with text free of the character `r` (so containing
no further occurrences), `getRecordIndexesFromError` returns, in order of
occurrence, the value `k - 1` for each occurrence (the endpoint encodes
1-based indices, batch positions are 0-based); it returns the empty list
when the error is absent or its message is not a string. -/
theorem C10_record_indexes_from_error (pairs : List (List Char × Nat))
    (tail : List Char)
    (hsep : ∀ p ∈ pairs, ∀ c ∈ p.1, c ≠ 'r')
    (htail : ∀ c ∈ tail, c ≠ 'r') :
    getRecordIndexesFromError
        (some ⟨some (String.mk (mkMsgChars pairs tail))⟩)
      = pairs.map (fun p => (p.2 : Int) - 1) ∧
    getRecordIndexesFromError none = [] ∧
    getRecordIndexesFromError (some ⟨none⟩) = [] := by
  refine ⟨?_, rfl, rfl⟩
  show scanIdx (String.mk (mkMsgChars pairs tail)).data = _
  exact scanIdx_mkMsg pairs tail hsep htail

/-- Witness for C10 on a message with indices 3 (parsed as 2) and 0 (parsed
as -1). -/
theorem C10_record_indexes_from_error_witness :
    getRecordIndexesFromError
        (some ⟨some (String.mk (mkMsgChars [(['#'], 3), ([], 0)] ['x']))⟩)
      = [((['#'] : List Char), 3), (([] : List Char), 0)].map
          (fun p => (p.2 : Int) - 1) ∧
    getRecordIndexesFromError none = [] ∧
    getRecordIndexesFromError (some ⟨none⟩) = [] :=
  C10_record_indexes_from_error [(['#'], 3), ([], 0)] ['x']
    (by decide) (by decide)

theorem intCast_mem_map (jdx : List Nat) (j : Nat) :
    ((j : Int) ∈ jdx.map (fun x => (x : Int))) ↔ j ∈ jdx := by
  simp

theorem enumFrom_filter_spec (jdx : List Nat) (l : List Rec) : ∀ (j : Nat),
    ((List.enumFrom j l).filter
        (fun p => decide (¬ ((p.1 : Int) ∈ jdx.map (fun x => (x : Int)))))).map
        Prod.snd
      = specRemaining j l jdx := by
  induction l with
  | nil => intro j; rfl
  | cons r rs ih =>
    intro j
    by_cases hj : j ∈ jdx
    · have hmem : ((j : Int) ∈ jdx.map (fun x => (x : Int))) :=
        (intCast_mem_map jdx j).mpr hj
      simp only [List.enumFrom, List.filter_cons, specRemaining, hj, if_pos,
        hmem, not_true, decide_False]
      exact ih (j + 1)
    · have hmem : ¬ ((j : Int) ∈ jdx.map (fun x => (x : Int))) :=
        fun hc => hj ((intCast_mem_map jdx j).mp hc)
      simp only [List.enumFrom, List.filter_cons, specRemaining, hj, if_neg,
        if_false, hmem, not_false_iff, decide_True]
      rw [if_pos trivial, List.map_cons, ih (j + 1)]

theorem pullAtRemaining_eq_spec (l : List Rec) (jdx : List Nat) :
    pullAtRemaining l (jdx.map (fun j => (j : Int)))
      = specRemaining 0 l jdx := by
  unfold pullAtRemaining
  rw [List.enum_eq_enumFrom]
  exact enumFrom_filter_spec jdx l 0

theorem pullAtRemoved_map (l : List Rec) (jdx : List Nat) :
    pullAtRemoved l (jdx.map (fun j => (j : Int)))
      = jdx.map (fun j => l.get? j) := by
  induction jdx with
  | nil => rfl
  | cons j js ih =>
    have hhead : (if (j : Int) < 0 then none else l.get? (j : Int).toNat)
        = l.get? j := by
      rw [if_neg (by omega), Int.toNat_natCast]
    exact congrArg₂ List.cons hhead ih

theorem specRemaining_sublist (jdx : List Nat) (l : List Rec) : ∀ (j : Nat),
    (specRemaining j l jdx).Sublist l := by
  induction l with
  | nil => intro j; exact List.Sublist.refl _
  | cons r rs ih =>
    intro j
    by_cases hj : j ∈ jdx
    · simp only [specRemaining, hj, if_pos]
      exact (ih (j + 1)).cons r
    · simp only [specRemaining, hj, if_neg, if_false]
      exact (ih (j + 1)).cons₂ r

theorem specRemaining_length_general (jdx : List Nat) (l : List Rec) :
    ∀ (j0 : Nat),
      (specRemaining j0 l jdx).length +
        ((List.range' j0 l.length).filter (fun x => decide (x ∈ jdx))).length
      = l.length := by
  induction l with
  | nil => intro j0; rfl
  | cons r rs ih =>
    intro j0
    rw [List.length_cons, List.range'_succ j0 rs.length 1]
    by_cases hj : j0 ∈ jdx
    · simp only [specRemaining, hj, if_pos, List.filter_cons]
      rw [if_pos (by decide : decide True = true)]
      simp only [List.length_cons]
      have := ih (j0 + 1)
      omega
    · simp only [specRemaining, hj, if_neg, if_false, List.filter_cons]
      rw [if_neg (by decide : ¬ decide False = true)]
      simp only [List.length_cons]
      have := ih (j0 + 1)
      omega

theorem range_filter_mem_length (jdx : List Nat) (n : Nat) (hnd : jdx.Nodup)
    (hb : ∀ j ∈ jdx, j < n) :
    ((List.range n).filter (fun x => decide (x ∈ jdx))).length
      = jdx.length := by
  have hperm : ((List.range n).filter (fun x => decide (x ∈ jdx))).Perm jdx := by
    refine List.perm_of_nodup_nodup_toFinset_eq
      ((List.nodup_range n).filter _) hnd ?_
    ext a
    simp only [List.mem_toFinset, List.mem_filter, List.mem_range,
      decide_eq_true_eq]
    exact ⟨fun h => h.2, fun h => ⟨hb a h, h⟩⟩
  exact hperm.length_eq

theorem specRemaining_length (jdx : List Nat) (l : List Rec)
    (hnd : jdx.Nodup) (hb : ∀ j ∈ jdx, j < l.length) :
    (specRemaining 0 l jdx).length + jdx.length = l.length := by
  have h1 := specRemaining_length_general jdx l 0
  rw [← List.range_eq_range' l.length] at h1
  rw [range_filter_mem_length jdx l.length hnd hb] at h1
  exact h1

/-- C4: when the whole-call error's message parses to a non-empty list of
failed indices (all in range and distinct), `_retryValidRecords` reports
exactly the records at those indices as failed and resubmits the remaining
records of the batch as one single extra `_putRecords` call (the remainder
being the batch records at the other positions, in original order); when no
indices parse, every record of the batch is reported failed and no
resubmission happens. -/
theorem C4_retry_valid_records (records : List Rec) (err : Option KErr)
    (jdx : List Nat) :
    (getRecordIndexesFromError err = [] →
      retryValidRecords records err
        = { reportedRecords := records.map some, resubmitted := none }) ∧
    (getRecordIndexesFromError err = jdx.map (fun j => (j : Int)) →
      jdx ≠ [] → jdx.Nodup → (∀ j ∈ jdx, j < records.length) →
      (retryValidRecords records err).reportedRecords
          = jdx.map (fun j => records.get? j) ∧
      (∀ o ∈ (retryValidRecords records err).reportedRecords,
        o.isSome = true) ∧
      (retryValidRecords records err).resubmitted
          = some (specRemaining 0 records jdx) ∧
      (specRemaining 0 records jdx).Sublist records ∧
      (specRemaining 0 records jdx).length + jdx.length = records.length) := by
  constructor
  · intro h
    unfold retryValidRecords
    rw [h]
    rfl
  · intro hidx hne hnd hb
    have hempty : (getRecordIndexesFromError err).isEmpty = false := by
      rw [hidx]
      cases jdx with
      | nil => exact absurd rfl hne
      | cons a l => rfl
    have hrep : (retryValidRecords records err).reportedRecords
        = jdx.map (fun j => records.get? j) := by
      unfold retryValidRecords
      rw [hempty]
      simp only [Bool.false_eq_true, if_false]
      rw [hidx]
      exact pullAtRemoved_map records jdx
    refine ⟨hrep, ?_, ?_, specRemaining_sublist jdx records 0,
      specRemaining_length jdx records hnd hb⟩
    · intro o ho
      rw [hrep] at ho
      obtain ⟨j, hj, rfl⟩ := List.mem_map.mp ho
      rw [List.get?_eq_getElem?, List.getElem?_eq_getElem (hb j hj)]
      rfl
    · unfold retryValidRecords
      rw [hempty]
      simp only [Bool.false_eq_true, if_false]
      rw [hidx, pullAtRemaining_eq_spec]

/-- Witness for C4 on a three-record batch and an error naming index 2 (the
second record, 0-based position 1). -/
theorem C4_retry_valid_records_witness :
    (getRecordIndexesFromError (some ⟨some "records.2.member.data"⟩) = [] →
      retryValidRecords [10, 20, 30] (some ⟨some "records.2.member.data"⟩)
        = { reportedRecords := [10, 20, 30].map some, resubmitted := none }) ∧
    (getRecordIndexesFromError (some ⟨some "records.2.member.data"⟩)
        = [1].map (fun j => (j : Int)) →
      ([1] : List Nat) ≠ [] → ([1] : List Nat).Nodup →
      (∀ j ∈ ([1] : List Nat), j < ([10, 20, 30] : List Rec).length) →
      (retryValidRecords [10, 20, 30]
          (some ⟨some "records.2.member.data"⟩)).reportedRecords
          = [1].map (fun j => ([10, 20, 30] : List Rec).get? j) ∧
      (∀ o ∈ (retryValidRecords [10, 20, 30]
          (some ⟨some "records.2.member.data"⟩)).reportedRecords,
        o.isSome = true) ∧
      (retryValidRecords [10, 20, 30]
          (some ⟨some "records.2.member.data"⟩)).resubmitted
          = some (specRemaining 0 [10, 20, 30] [1]) ∧
      (specRemaining 0 [10, 20, 30] [1]).Sublist [10, 20, 30] ∧
      (specRemaining 0 [10, 20, 30] [1]).length + ([1] : List Nat).length
        = ([10, 20, 30] : List Rec).length) :=
  C4_retry_valid_records [10, 20, 30] (some ⟨some "records.2.member.data"⟩) [1]
